import Mathlib

/-!
Verification of the fund-tracker normalization pipeline
(`preprocess_filings_df`, `filter_date_range`, `filter_top_k_holdings`,
`make_graph`) as a shallow embedding.

Modelling conventions:
* calendar dates are encoded as natural numbers `year*10000 + month*100 + day`,
  which is order-isomorphic to the calendar order on the dates that occur;
* `pd.to_datetime` on already-parsed dates is the identity;
* numeric columns (`Value`, `Percentage`, `Shares`) are integers; the nullable
  `Percentage` column of the raw frame is an `Option`;
* Python string comparison is code-point lexicographic, i.e. the `List.lt`
  order on `String.data`;
* pandas sorts are modelled by the stable `List.insertionSort` (a multi-column
  `sort_values` is a stable lexsort in pandas; no claim below depends on the
  order of ties under the single-column sorts);
* in-place column assignments on an argument frame are modelled by a companion
  `..._inputAfter` function returning the caller-visible final state of the
  argument.
-/

namespace FundTracker

/-- Python string comparison: code-point lexicographic order. -/
def strLt (a b : String) : Prop := a.data < b.data

instance : DecidableRel strLt :=
  fun a b => inferInstanceAs (Decidable (a.data < b.data))

/-- Option type of a holding row: plain equity, put option, or call option. -/
inductive OptType where
  | plain
  | put
  | call
deriving DecidableEq, Repr, Inhabited

/-- A reporting period label such as "Q1 2023": quarter number (1..4) and year. -/
structure QLabel where
  qnum : Nat
  year : Nat
deriving DecidableEq, Repr, Inhabited

/-- Encoding of the calendar date (year, month, day) as a natural number,
monotone in the calendar order. -/
def dateEnc (y m d : Nat) : Nat := y * 10000 + m * 100 + d

/-- `get_quarter_end`: deterministic quarter-end date for a period label
(Q1 -> Mar 31, Q2 -> Jun 30, Q3 -> Sep 30, Q4 -> Dec 31). -/
def get_quarter_end (l : QLabel) : Nat :=
  if l.qnum = 1 then dateEnc l.year 3 31
  else if l.qnum = 2 then dateEnc l.year 6 30
  else if l.qnum = 3 then dateEnc l.year 9 30
  else dateEnc l.year 12 31

/-- A raw row of the filings frame handed to `preprocess_filings_df`
(columns Quarter, Date Filed, Ticker, Company Name, Class, CUSIP,
Value ($000), Percentage, Shares, Principal, Option Type). -/
structure RawRow where
  quarter : QLabel
  dateFiled : Nat
  ticker : String
  companyName : String
  cls : String
  cusip : String
  value : Int
  percentage : Option Int
  shares : Int
  principal : String
  optionType : OptType
deriving DecidableEq, Repr, Inhabited

/-- A row of the intermediate frame after value scaling, `dropna` on
Percentage, `quarter_end` derivation and `ticker_adjusted` derivation. -/
structure MidRow where
  quarter : QLabel
  dateFiled : Nat
  ticker : String
  companyName : String
  cls : String
  cusip : String
  value : Int
  percentage : Int
  shares : Int
  principal : String
  optionType : OptType
  quarter_end : Nat
  ticker_adjusted : String
deriving DecidableEq, Repr, Inhabited

/-- A row of the normalized output frame built from `updated_rows`.
Synthesized zero rows are dicts without a `ticker_adjusted` key, so that
column is `none` for them (NaN in the frame). -/
structure Row where
  quarter : QLabel
  dateFiled : Nat
  ticker : String
  companyName : String
  cls : String
  cusip : String
  value : Int
  percentage : Int
  shares : Int
  principal : String
  optionType : OptType
  quarter_end : Nat
  ticker_adjusted : Option String
deriving DecidableEq, Repr, Inhabited

/-- The put/call suffix rule applied to a ticker (lines 114-116 and 205-207). -/
def adjustTicker (t : String) (o : OptType) : String :=
  match o with
  | OptType.plain => t
  | OptType.put => t ++ " (put)"
  | OptType.call => t ++ " (call)"

/-- `pd.to_datetime` on a date already parsed into our encoding. -/
def toDatetime (n : Nat) : Nat := n

/-- Line 86: in-place conversion of the Date Filed column. -/
def convertDateFiled (r : RawRow) : RawRow :=
  { r with dateFiled := toDatetime r.dateFiled }

/-- Line 89: in-place scaling of the Value ($000) column by 1000. -/
def scaleValue (r : RawRow) : RawRow :=
  { r with value := 1000 * r.value }

/-- Caller-visible state of the argument frame after `preprocess_filings_df`
returns: lines 86 and 89 update the caller's frame in place; every later
operation (`rename`, `dropna`, column adds, sorts) rebinds `df` to a fresh
frame, leaving the caller's object as of line 89. -/
def preprocess_filings_df_inputAfter (rs : List RawRow) : List RawRow :=
  (rs.map convertDateFiled).map scaleValue

/-- Lift a raw row (post `dropna`) into the intermediate frame:
derive `quarter_end` and initialise `ticker_adjusted` with the raw ticker. -/
def mkMid (r : RawRow) : MidRow :=
  { quarter := r.quarter, dateFiled := r.dateFiled, ticker := r.ticker,
    companyName := r.companyName, cls := r.cls, cusip := r.cusip,
    value := r.value, percentage := r.percentage.getD 0, shares := r.shares,
    principal := r.principal, optionType := r.optionType,
    quarter_end := get_quarter_end r.quarter, ticker_adjusted := r.ticker }

/-- Lines 86-116: scaling, dropna on Percentage, quarter-end derivation,
chronological sort, and the put/call ticker adjustment. -/
def preprocessMid (rs : List RawRow) : List MidRow :=
  let rs2 := preprocess_filings_df_inputAfter rs
  let kept := rs2.filter (fun r => r.percentage.isSome)
  let sorted := (kept.map mkMid).insertionSort
    (fun a b => a.quarter_end ≤ b.quarter_end)
  sorted.map (fun m => { m with ticker_adjusted := adjustTicker m.ticker m.optionType })

/-- Helper for `uniqueList`: keep the elements not yet seen. -/
def uniqueAux {α : Type} [DecidableEq α] (seen : List α) : List α → List α
  | [] => []
  | a :: l => if a ∈ seen then uniqueAux seen l else a :: uniqueAux (a :: seen) l

/-- First-occurrence deduplication, as `pandas.Series.unique` (appearance order). -/
def uniqueList {α : Type} [DecidableEq α] (l : List α) : List α :=
  uniqueAux [] l

/-- Line 119: the canonical quarter axis, the sorted distinct quarter ends. -/
def all_quarters (df : List MidRow) : List Nat :=
  ((df.map (fun r => r.quarter_end)).dedup).insertionSort (fun a b => a ≤ b)

/-- Line 125: the sub-frame of one adjusted ticker. -/
def tickerDf (df : List MidRow) (t : String) : List MidRow :=
  df.filter (fun r => r.ticker_adjusted = t)

/-- The quarter ends at which one adjusted ticker was observed
(`ticker_df['quarter_end']`). -/
def obsQ (df : List MidRow) (t : String) : List Nat :=
  (tickerDf df t).map (fun r => r.quarter_end)

/-- A kept row (line 152): the first row of the ticker frame at that quarter,
dict including the `ticker_adjusted` key. -/
def midToRow (m : MidRow) : Row :=
  { quarter := m.quarter, dateFiled := m.dateFiled, ticker := m.ticker,
    companyName := m.companyName, cls := m.cls, cusip := m.cusip,
    value := m.value, percentage := m.percentage, shares := m.shares,
    principal := m.principal, optionType := m.optionType,
    quarter_end := m.quarter_end, ticker_adjusted := some m.ticker_adjusted }

/-- A synthesized zero row (lines 138-149): Quarter and Date Filed looked up
from the first row of the full frame at that quarter (`src`), descriptive
fields from the first row of the ticker frame (`r0`), the adjusted ticker
stored in the Ticker field, and no `ticker_adjusted` key. -/
def synthRow (t : String) (q : Nat) (src r0 : MidRow) : Row :=
  { quarter := src.quarter, dateFiled := src.dateFiled, ticker := t,
    companyName := r0.companyName, cls := r0.cls, cusip := r0.cusip,
    value := 0, percentage := 0, shares := 0,
    principal := r0.principal, optionType := r0.optionType,
    quarter_end := q, ticker_adjusted := none }

/-- Lines 133-152, loop body for one canonical quarter `q` of the series `t`:
skip it when outside the series' observed lifespan, keep the first observed
row at `q` when one exists, otherwise synthesize a zero row. -/
def emitFor (df : List MidRow) (t : String) (q : Nat) : Option Row :=
  if q < (obsQ df t).min?.getD 0 ∨ (obsQ df t).max?.getD 0 < q then none
  else if (obsQ df t).contains q then
    some (midToRow
      (((tickerDf df t).find? (fun r => r.quarter_end = q)).getD (tickerDf df t).headI))
  else
    some (synthRow t q
      ((df.find? (fun r => r.quarter_end = q)).getD (tickerDf df t).headI)
      (tickerDf df t).headI)

/-- Lines 123-152, loop body for one adjusted ticker `t`: the kept and
synthesized rows of that series, in canonical quarter order. -/
def rowsFor (df : List MidRow) (allQ : List Nat) (t : String) : List Row :=
  if (tickerDf df t).isEmpty then []
  else allQ.filterMap (emitFor df t)

/-- Lines 122-154: `updated_rows`, series by series in first-appearance order. -/
def buildRows (df : List MidRow) : List Row :=
  (uniqueList (df.map (fun r => r.ticker_adjusted))).flatMap
    (rowsFor df (all_quarters df))

/-- The final sort relation of line 157: (Ticker, quarter_end) ascending. -/
def rowLe (a b : Row) : Prop :=
  strLt a.ticker b.ticker ∨ (a.ticker = b.ticker ∧ a.quarter_end ≤ b.quarter_end)

instance : DecidableRel rowLe := fun a b =>
  inferInstanceAs (Decidable (strLt a.ticker b.ticker ∨
    (a.ticker = b.ticker ∧ a.quarter_end ≤ b.quarter_end)))

instance : IsTrans Row rowLe :=
  ⟨by
    intro a b c hab hbc
    rcases hab with h1 | ⟨e1, n1⟩
    · rcases hbc with h2 | ⟨e2, n2⟩
      · exact Or.inl (lt_trans (α := List Char) h1 h2)
      · exact Or.inl (e2 ▸ h1)
    · rcases hbc with h2 | ⟨e2, n2⟩
      · exact Or.inl (e1 ▸ h2)
      · exact Or.inr ⟨e1.trans e2, le_trans n1 n2⟩⟩

instance : IsTotal Row rowLe :=
  ⟨by
    intro a b
    rcases lt_trichotomy a.ticker.data b.ticker.data with h | h | h
    · exact Or.inl (Or.inl h)
    · have e : a.ticker = b.ticker := by
        have ha : a.ticker = String.mk a.ticker.data := rfl
        have hb : b.ticker = String.mk b.ticker.data := rfl
        rw [ha, hb, h]
      rcases Nat.le_total a.quarter_end b.quarter_end with hle | hle
      · exact Or.inl (Or.inr ⟨e, hle⟩)
      · exact Or.inr (Or.inr ⟨e.symm, hle⟩)
    · exact Or.inr (Or.inl h)⟩

/-- The normalized table as a row list (the value of `updated_df` at line 158
whenever the construction succeeds). -/
def normalizeRows (rs : List RawRow) : List Row :=
  (buildRows (preprocessMid rs)).insertionSort rowLe

/-- `preprocess_filings_df` (lines 84-159). When `updated_rows` is empty the
frame built from it has no columns at all, and the final
`sort_values(by=['Ticker', 'quarter_end'])` raises a KeyError; that failure
is the `Except.error` case. Otherwise the sorted table is returned. -/
def preprocess_filings_df (rs : List RawRow) : Except Unit (List Row) :=
  if (buildRows (preprocessMid rs)).isEmpty then Except.error ()
  else Except.ok (normalizeRows rs)

/-- `filter_date_range` (lines 161-179), the explicit caller-supplied
[start, end] branch (lines 172-177): keep rows with
start ≤ quarter_end ≤ end. The named presets (1Y/3Y/5Y/Max) only compute a
different pair and reuse the same final filter. -/
def filter_date_range (df : List Row) (start_date end_date : Nat) : List Row :=
  df.filter (fun r => start_date ≤ r.quarter_end && r.quarter_end ≤ end_date)

/-- `DataFrame.head` with pandas semantics: a nonnegative count takes that
many leading rows; a negative count drops that many trailing rows. -/
def pandasHead {α : Type} (k : Int) (l : List α) : List α :=
  if 0 ≤ k then l.take k.toNat else l.take (l.length - (-k).toNat)

/-- Lines 184-187 of `filter_top_k_holdings`: re-sort chronologically, take
the rows at the maximum `quarter_end`, and rank them by Percentage
descending (the value of `df_end_date_sorted`). -/
def dfEndSorted (df : List Row) : List Row :=
  let sorted := df.insertionSort (fun a b => a.quarter_end ≤ b.quarter_end)
  let end_date := (sorted.map (fun r => r.quarter_end)).max?.getD 0
  (sorted.filter (fun r => r.quarter_end = end_date)).insertionSort
    (fun a b => b.percentage ≤ a.percentage)

/-- `filter_top_k_holdings` (lines 181-193). -/
def filter_top_k_holdings (df : List Row) (k : Int) : List Row :=
  let sorted := df.insertionSort (fun a b => a.quarter_end ≤ b.quarter_end)
  let top_holdings := uniqueList ((pandasHead k (dfEndSorted df)).map (fun r => r.ticker))
  sorted.filter (fun r => top_holdings.contains r.ticker)

/-- Caller-visible state of the argument frame after `make_graph`
(lines 204-207 overwrite the `ticker_adjusted` column of the caller's frame
in place; nothing else in `make_graph` writes to its argument). -/
def make_graph_inputAfter (df : List Row) : List Row :=
  df.map (fun r => { r with ticker_adjusted := some (adjustTicker r.ticker r.optionType) })

/-- Caller-visible state of the argument after `filter_date_range`: the
function contains no in-place statement on its argument. -/
def filter_date_range_inputAfter (df : List Row) : List Row := df

/-- Caller-visible state of the argument after `filter_top_k_holdings`: the
function contains no in-place statement on its argument. -/
def filter_top_k_holdings_inputAfter (df : List Row) : List Row := df

/-- The series key an output row was emitted under: kept rows carry it in the
`ticker_adjusted` column, synthesized rows carry it in the Ticker field. -/
def rowSeriesKey (r : Row) : String := r.ticker_adjusted.getD r.ticker

/-- seriesId as the spec derives it for any row: the raw symbol with the
put/call suffix applied. -/
def seriesId (r : Row) : String := adjustTicker r.ticker r.optionType

/-- The distinct series keys of the input, in first-appearance order of the
chronologically sorted frame. -/
def seriesKeys (rs : List RawRow) : List String :=
  uniqueList ((preprocessMid rs).map (fun r => r.ticker_adjusted))

/-- The quarters at which a series was observed in the input to normalize. -/
def observedQuarters (rs : List RawRow) (s : String) : List Nat :=
  obsQ (preprocessMid rs) s

/-- Reading a normalized output row back as an input record: the nullable
Percentage column is populated, the frame-only columns are dropped. -/
def rowToRecord (r : Row) : RawRow :=
  { quarter := r.quarter, dateFiled := r.dateFiled, ticker := r.ticker,
    companyName := r.companyName, cls := r.cls, cusip := r.cusip,
    value := r.value, percentage := some r.percentage, shares := r.shares,
    principal := r.principal, optionType := r.optionType }

/-- The distinct raw symbols of a table, in appearance order. -/
def distinctTickers (t : List Row) : List String :=
  uniqueList (t.map (fun r => r.ticker))

/-- The maximum `quarter_end` of a table (`df['quarter_end'].max()`). -/
def maxDate (t : List Row) : Nat :=
  (t.map (fun r => r.quarter_end)).max?.getD 0

/-- The rows of a table at its maximum `quarter_end`. -/
def rowsAtMaxDate (t : List Row) : List Row :=
  t.filter (fun r => r.quarter_end = maxDate t)

/-- The spec-side sortedness property of claim C3: the table is sorted by
(`seriesId`, `periodEndDate`) ascending. -/
def sortedBySeriesId (t : List Row) : Prop :=
  t.Pairwise (fun a b => strLt (seriesId a) (seriesId b) ∨
    (seriesId a = seriesId b ∧ a.quarter_end ≤ b.quarter_end))

instance (t : List Row) : Decidable (sortedBySeriesId t) :=
  inferInstanceAs (Decidable (t.Pairwise (fun a b => strLt (seriesId a) (seriesId b) ∨
    (seriesId a = seriesId b ∧ a.quarter_end ≤ b.quarter_end))))

/-! Concrete inputs used in witnesses and counterexamples. -/

/-- The period label "Q1 2023". -/
def q1 : QLabel := ⟨1, 2023⟩

/-- The period label "Q2 2023". -/
def q2 : QLabel := ⟨2, 2023⟩

/-- The period label "Q3 2023". -/
def q3 : QLabel := ⟨3, 2023⟩

/-- A raw record with the given period, ticker, option type, percentage and
value; the remaining columns carry fixed representative data. -/
def mkRec (ql : QLabel) (t : String) (o : OptType) (p : Int) (v : Int) : RawRow :=
  { quarter := ql, dateFiled := 7, ticker := t, companyName := t ++ " Co",
    cls := "COM", cusip := "123456789", value := v, percentage := some p,
    shares := 100, principal := "SH", optionType := o }

/-- One plain record with a nonzero reported value. -/
def exV : List RawRow := [mkRec q1 "AAA" OptType.plain 5 1]

/-- A put series observed at Q1 and Q2 next to an equity row of the same
symbol at Q2: the put series is listed first in the chronologically sorted
frame, so the final stable sort on the shared raw Ticker leaves the put
rows before the equity row. -/
def exS : List RawRow :=
  [mkRec q1 "XYZ" OptType.put 1 0, mkRec q2 "XYZ" OptType.put 1 0,
   mkRec q2 "XYZ" OptType.plain 2 0]

/-- A put series observed at Q1 and Q3 with a gap at the canonical quarter
Q2 (made canonical by an unrelated equity series): Q2 is filled by a
synthesized zero row. -/
def exG : List RawRow :=
  [mkRec q1 "XYZ" OptType.put 2 0, mkRec q3 "XYZ" OptType.put 1 0,
   mkRec q2 "ABC" OptType.plain 3 0]

/-- Six rows at one quarter with pairwise distinct percentages; the equity
and the put share the raw symbol XYZ, so the top-5 head rows contain only
four distinct symbols. -/
def exT : List RawRow :=
  [mkRec q1 "XYZ" OptType.plain 10 0, mkRec q1 "XYZ" OptType.put 9 0,
   mkRec q1 "AAA" OptType.plain 8 0, mkRec q1 "BBB" OptType.plain 7 0,
   mkRec q1 "CCC" OptType.plain 6 0, mkRec q1 "DDD" OptType.plain 5 0]

/-- Two plain records at one quarter. -/
def exK : List RawRow :=
  [mkRec q1 "AAA" OptType.plain 5 0, mkRec q1 "BBB" OptType.plain 3 0]

/-! ### Properties of `uniqueList` -/

theorem mem_uniqueAux {α : Type} [DecidableEq α] {a : α} :
    ∀ (l seen : List α), a ∈ uniqueAux seen l ↔ a ∈ l ∧ a ∉ seen := by
  intro l
  induction l with
  | nil => intro seen; simp [uniqueAux]
  | cons b l ih =>
    intro seen
    by_cases hb : b ∈ seen
    · rw [uniqueAux, if_pos hb, ih]
      constructor
      · rintro ⟨h1, h2⟩
        exact ⟨List.mem_cons_of_mem _ h1, h2⟩
      · rintro ⟨h1, h2⟩
        rcases List.mem_cons.mp h1 with h | h
        · subst h; exact absurd hb h2
        · exact ⟨h, h2⟩
    · rw [uniqueAux, if_neg hb]
      constructor
      · intro h
        rcases List.mem_cons.mp h with h | h
        · subst h; exact ⟨List.mem_cons_self _ _, hb⟩
        · have h3 := (ih (b :: seen)).mp h
          exact ⟨List.mem_cons_of_mem _ h3.1, fun hs => h3.2 (List.mem_cons_of_mem _ hs)⟩
      · rintro ⟨h1, h2⟩
        by_cases hab : a = b
        · subst hab; exact List.mem_cons_self _ _
        · rcases List.mem_cons.mp h1 with h | h
          · exact absurd h hab
          · refine List.mem_cons_of_mem _ ((ih (b :: seen)).mpr ⟨h, ?_⟩)
            intro hs
            rcases List.mem_cons.mp hs with h4 | h4
            · exact hab h4
            · exact h2 h4

theorem mem_uniqueList {α : Type} [DecidableEq α] {a : α} {l : List α} :
    a ∈ uniqueList l ↔ a ∈ l := by
  rw [uniqueList, mem_uniqueAux]
  simp

theorem nodup_uniqueAux {α : Type} [DecidableEq α] :
    ∀ (l seen : List α), (uniqueAux seen l).Nodup := by
  intro l
  induction l with
  | nil => intro seen; simp [uniqueAux]
  | cons b l ih =>
    intro seen
    by_cases hb : b ∈ seen
    · rw [uniqueAux, if_pos hb]; exact ih seen
    · rw [uniqueAux, if_neg hb]
      refine List.nodup_cons.mpr ⟨?_, ih (b :: seen)⟩
      intro hmem
      exact ((mem_uniqueAux l (b :: seen)).mp hmem).2 (List.mem_cons_self _ _)

theorem nodup_uniqueList {α : Type} [DecidableEq α] (l : List α) :
    (uniqueList l).Nodup := nodup_uniqueAux l []

theorem length_uniqueAux_le {α : Type} [DecidableEq α] :
    ∀ (l seen : List α), (uniqueAux seen l).length ≤ l.length := by
  intro l
  induction l with
  | nil => intro; simp [uniqueAux]
  | cons b l ih =>
    intro seen
    by_cases hb : b ∈ seen
    · rw [uniqueAux, if_pos hb]
      exact le_trans (ih seen) (Nat.le_succ _)
    · rw [uniqueAux, if_neg hb]
      simpa using ih (b :: seen)

theorem length_uniqueList_le {α : Type} [DecidableEq α] (l : List α) :
    (uniqueList l).length ≤ l.length := length_uniqueAux_le l []

theorem uniqueAux_eq_self {α : Type} [DecidableEq α] :
    ∀ (l seen : List α), l.Nodup → (∀ a ∈ l, a ∉ seen) → uniqueAux seen l = l := by
  intro l
  induction l with
  | nil => intro seen _ _; rfl
  | cons b l ih =>
    intro seen hnd hdisj
    rw [uniqueAux, if_neg (hdisj b (List.mem_cons_self _ _))]
    have hnd' := List.nodup_cons.mp hnd
    congr 1
    refine ih (b :: seen) hnd'.2 ?_
    intro a ha hmem
    rcases List.mem_cons.mp hmem with h | h
    · exact hnd'.1 (h ▸ ha)
    · exact hdisj a (List.mem_cons_of_mem _ ha) h

theorem uniqueList_eq_self {α : Type} [DecidableEq α] {l : List α} (h : l.Nodup) :
    uniqueList l = l := uniqueAux_eq_self l [] h (by simp)

theorem toFinset_uniqueList {α : Type} [DecidableEq α] (l : List α) :
    (uniqueList l).toFinset = l.toFinset := by
  ext a
  simp [List.mem_toFinset, mem_uniqueList]

theorem length_uniqueList_eq_card {α : Type} [DecidableEq α] (l : List α) :
    (uniqueList l).length = l.toFinset.card := by
  rw [← List.toFinset_card_of_nodup (nodup_uniqueList l), toFinset_uniqueList]

/-! ### Properties of the gap-fill loop -/

theorem mem_tickerDf {df : List MidRow} {t : String} {m : MidRow} :
    m ∈ tickerDf df t ↔ m ∈ df ∧ m.ticker_adjusted = t := by
  simp [tickerDf]

theorem emitFor_eq_none {df : List MidRow} {t : String} {q : Nat} :
    emitFor df t q = none ↔
      (q < (obsQ df t).min?.getD 0 ∨ (obsQ df t).max?.getD 0 < q) := by
  unfold emitFor
  by_cases hc : q < (obsQ df t).min?.getD 0 ∨ (obsQ df t).max?.getD 0 < q
  · simp [hc]
  · rw [if_neg hc]
    simp only [hc, iff_false]
    split <;> simp

theorem emitFor_some_spec {df : List MidRow} {t : String} {q : Nat} {r : Row}
    (h : emitFor df t q = some r) :
    rowSeriesKey r = t ∧ r.quarter_end = q ∧
      (obsQ df t).min?.getD 0 ≤ q ∧ q ≤ (obsQ df t).max?.getD 0 := by
  unfold emitFor at h
  by_cases hc : q < (obsQ df t).min?.getD 0 ∨ (obsQ df t).max?.getD 0 < q
  · rw [if_pos hc] at h
    exact absurd h (by simp)
  · push_neg at hc
    rw [if_neg (by omega : ¬(q < (obsQ df t).min?.getD 0 ∨ (obsQ df t).max?.getD 0 < q))] at h
    by_cases hd : (obsQ df t).contains q
    · rw [if_pos hd] at h
      have hq : q ∈ obsQ df t := by simpa [List.contains] using hd
      rcases List.mem_map.mp hq with ⟨m', hm', hqe'⟩
      have hsome : ((tickerDf df t).find? (fun r => r.quarter_end = q)).isSome := by
        rw [List.find?_isSome]
        exact ⟨m', hm', by simp [hqe']⟩
      rcases Option.isSome_iff_exists.mp hsome with ⟨m, hfind⟩
      rw [hfind] at h
      simp only [Option.getD_some] at h
      have hmem := List.mem_of_find?_eq_some hfind
      have hqe : m.quarter_end = q := by
        have := List.find?_some hfind
        simpa using this
      have hta : m.ticker_adjusted = t := (mem_tickerDf.mp hmem).2
      injection h with h2
      subst h2
      refine ⟨?_, ?_, hc.1, hc.2⟩
      · simp [midToRow, rowSeriesKey, hta]
      · simp [midToRow, hqe]
    · rw [if_neg hd] at h
      injection h with h2
      subst h2
      refine ⟨?_, ?_, hc.1, hc.2⟩
      · simp [synthRow, rowSeriesKey]
      · simp [synthRow]

theorem emitFor_synth_of_not_obs {df : List MidRow} {t : String} {q : Nat} {r : Row}
    (h : emitFor df t q = some r) (hq : q ∉ obsQ df t) :
    r.value = 0 ∧ r.percentage = 0 ∧ r.shares = 0 ∧ r.ticker_adjusted = none := by
  unfold emitFor at h
  by_cases hc : q < (obsQ df t).min?.getD 0 ∨ (obsQ df t).max?.getD 0 < q
  · rw [if_pos hc] at h
    exact absurd h (by simp)
  · rw [if_neg hc] at h
    rw [if_neg (fun hcont => hq (by simpa [List.contains] using hcont))] at h
    injection h with h2
    subst h2
    simp [synthRow]

theorem mem_rowsFor {df : List MidRow} {allQ : List Nat} {t : String} {r : Row}
    (h : r ∈ rowsFor df allQ t) :
    rowSeriesKey r = t ∧ r.quarter_end ∈ allQ ∧
      (obsQ df t).min?.getD 0 ≤ r.quarter_end ∧
      r.quarter_end ≤ (obsQ df t).max?.getD 0 := by
  unfold rowsFor at h
  by_cases he : (tickerDf df t).isEmpty
  · rw [if_pos he] at h
    simp at h
  · rw [if_neg he] at h
    rcases List.mem_filterMap.mp h with ⟨q, hq, hemit⟩
    obtain ⟨h1, h2, h3, h4⟩ := emitFor_some_spec hemit
    rw [← h2] at hq h3 h4
    exact ⟨h1, hq, h3, h4⟩

theorem countP_rowsFor_self {df : List MidRow} {allQ : List Nat} {t : String} {q : Nat}
    (hne : tickerDf df t ≠ [])
    (hnd : allQ.Nodup) (hq : q ∈ allQ)
    (h1 : (obsQ df t).min?.getD 0 ≤ q) (h2 : q ≤ (obsQ df t).max?.getD 0) :
    (rowsFor df allQ t).countP
      (fun r => decide (rowSeriesKey r = t ∧ r.quarter_end = q)) = 1 := by
  unfold rowsFor
  rw [if_neg (by simpa [List.isEmpty_iff] using hne)]
  rw [List.countP_filterMap]
  have hpt : ∀ q' ∈ allQ,
      ((Option.map (fun r => decide (rowSeriesKey r = t ∧ r.quarter_end = q))
          (emitFor df t q')).getD false) = true ↔ (q' == q) = true := by
    intro q' _
    by_cases hqq : q' = q
    · subst hqq
      cases hemit : emitFor df t q' with
      | none =>
        have := emitFor_eq_none.mp hemit
        omega
      | some r =>
        obtain ⟨hk, hqe, _, _⟩ := emitFor_some_spec hemit
        simp [hk, hqe]
    · cases hemit : emitFor df t q' with
      | none => simp [hqq]
      | some r =>
        obtain ⟨hk, hqe, _, _⟩ := emitFor_some_spec hemit
        simp [hk, hqe, hqq]
  rw [List.countP_congr hpt, ← List.count_eq_countP,
    List.count_eq_one_of_mem hnd hq]

theorem countP_rowsFor_other {df : List MidRow} {allQ : List Nat} {t s : String}
    {q : Nat} (hts : t ≠ s) :
    (rowsFor df allQ t).countP
      (fun r => decide (rowSeriesKey r = s ∧ r.quarter_end = q)) = 0 := by
  rw [List.countP_eq_zero]
  intro r hr
  have h := (mem_rowsFor hr).1
  simp [h, hts]

theorem countP_flatMap_zero {α : Type} (p : Row → Bool) (f : α → List Row) :
    ∀ keys : List α, (∀ t ∈ keys, (f t).countP p = 0) →
      (keys.flatMap f).countP p = 0 := by
  intro keys
  induction keys with
  | nil => intro; simp
  | cons t keys ih =>
    intro h
    rw [List.flatMap_cons, List.countP_append, h t (List.mem_cons_self _ _),
      ih (fun a ha => h a (List.mem_cons_of_mem _ ha))]

theorem countP_flatMap_single {α : Type} (p : Row → Bool) (f : α → List Row) :
    ∀ (keys : List α) (s : α), keys.Nodup → s ∈ keys →
      (∀ t ∈ keys, t ≠ s → (f t).countP p = 0) →
      (keys.flatMap f).countP p = (f s).countP p := by
  intro keys
  induction keys with
  | nil =>
    intro s _ h
    simp at h
  | cons t keys ih =>
    intro s hnd hs hz
    rw [List.flatMap_cons, List.countP_append]
    rcases List.mem_cons.mp hs with h | h
    · subst h
      rw [countP_flatMap_zero p f keys
        (fun a ha => hz a (List.mem_cons_of_mem _ ha)
          (fun e => (List.nodup_cons.mp hnd).1 (e ▸ ha)))]
      omega
    · rw [hz t (List.mem_cons_self _ _) (fun e => (List.nodup_cons.mp hnd).1 (e ▸ h)),
        ih s (List.nodup_cons.mp hnd).2 h
          (fun a ha hne => hz a (List.mem_cons_of_mem _ ha) hne)]
      omega

theorem preprocess_ok_eq {rs : List RawRow} {tbl : List Row}
    (ht : preprocess_filings_df rs = Except.ok tbl) : tbl = normalizeRows rs := by
  unfold preprocess_filings_df at ht
  by_cases he : (buildRows (preprocessMid rs)).isEmpty
  · rw [if_pos he] at ht
    exact absurd ht (by simp)
  · rw [if_neg he] at ht
    injection ht with h2
    exact h2.symm

theorem nodup_all_quarters (df : List MidRow) : (all_quarters df).Nodup := by
  unfold all_quarters
  exact (List.perm_insertionSort _ _).symm.nodup (List.nodup_dedup _)

/-- Claim C1: for every series `s` of the input and every canonical quarter
`q` inside the observed lifespan of `s`, the normalized table has exactly one
row for the pair `(s, q)` (a row belongs to `s` through its series key: the
`ticker_adjusted` column for kept rows, the Ticker field for synthesized
rows); and when `q` was not observed for `s`, that row is a synthesized one:
no `ticker_adjusted` key, and shareCount = 0, valueThousands = 0,
percentOfPortfolio = 0. -/
theorem C1_gap_fill_exactly_one (rs : List RawRow) (tbl : List Row) (s : String)
    (q : Nat)
    (ht : preprocess_filings_df rs = Except.ok tbl)
    (hs : s ∈ seriesKeys rs)
    (hq : q ∈ all_quarters (preprocessMid rs))
    (h1 : (observedQuarters rs s).min?.getD 0 ≤ q)
    (h2 : q ≤ (observedQuarters rs s).max?.getD 0) :
    tbl.countP (fun r => decide (rowSeriesKey r = s ∧ r.quarter_end = q)) = 1 ∧
    (q ∉ observedQuarters rs s →
      ∀ r ∈ tbl, rowSeriesKey r = s → r.quarter_end = q →
        r.value = 0 ∧ r.percentage = 0 ∧ r.shares = 0 ∧ r.ticker_adjusted = none) := by
  constructor
  · rw [preprocess_ok_eq ht]
    unfold normalizeRows
    rw [(List.perm_insertionSort rowLe _).countP_eq]
    unfold buildRows
    unfold seriesKeys at hs
    rw [countP_flatMap_single _ _ _ s (nodup_uniqueList _) hs
      (fun a _ hne => countP_rowsFor_other hne)]
    have hsm : s ∈ (preprocessMid rs).map (fun r => r.ticker_adjusted) :=
      mem_uniqueList.mp hs
    rcases List.mem_map.mp hsm with ⟨m, hm, hma⟩
    refine countP_rowsFor_self ?_ (nodup_all_quarters _) hq h1 h2
    exact List.ne_nil_of_mem (mem_tickerDf.mpr ⟨hm, hma⟩)
  · intro hobs r hr hk hqe
    rw [preprocess_ok_eq ht] at hr
    have hr2 : r ∈ buildRows (preprocessMid rs) :=
      ((List.perm_insertionSort rowLe _).mem_iff).mp hr
    rcases List.mem_flatMap.mp hr2 with ⟨a, _, hra⟩
    have hkey := (mem_rowsFor hra).1
    rw [hk] at hkey
    subst hkey
    unfold rowsFor at hra
    by_cases he : (tickerDf (preprocessMid rs) s).isEmpty
    · rw [if_pos he] at hra
      simp at hra
    · rw [if_neg he] at hra
      rcases List.mem_filterMap.mp hra with ⟨q', _, hemit⟩
      have hq' : r.quarter_end = q' := (emitFor_some_spec hemit).2.1
      have hqq : q' = q := by rw [← hq', hqe]
      subst hqq
      exact emitFor_synth_of_not_obs hemit hobs

/-- Witness for C1: on `exG` the put series has exactly one row at the
canonical quarter Q2 2023 inside its lifespan, Q2 2023 is not observed for
the series, and that row is synthesized with zero shares, value and
percentage. -/
theorem C1_gap_fill_exactly_one_witness :
    preprocess_filings_df exG = Except.ok (normalizeRows exG) ∧
    "XYZ (put)" ∈ seriesKeys exG ∧
    (20230630 : Nat) ∈ all_quarters (preprocessMid exG) ∧
    (20230630 : Nat) ∉ observedQuarters exG "XYZ (put)" ∧
    ((normalizeRows exG).countP
      (fun r => decide (rowSeriesKey r = "XYZ (put)" ∧ r.quarter_end = 20230630)) = 1 ∧
      ((20230630 : Nat) ∉ observedQuarters exG "XYZ (put)" →
        ∀ r ∈ normalizeRows exG, rowSeriesKey r = "XYZ (put)" →
          r.quarter_end = 20230630 →
          r.value = 0 ∧ r.percentage = 0 ∧ r.shares = 0 ∧ r.ticker_adjusted = none)) :=
  ⟨by rfl, by decide, by decide, by decide,
    C1_gap_fill_exactly_one exG (normalizeRows exG) "XYZ (put)" 20230630
      (by rfl) (by decide) (by decide) (by decide) (by decide)⟩

/-- Claim C8: no normalized row lies outside its series' observed lifespan:
for a series `s` of the input and a quarter `q` strictly below the first or
above the last observed quarter of `s`, no row of the table belongs to
`(s, q)`. -/
theorem C8_no_extrapolation (rs : List RawRow) (tbl : List Row) (s : String)
    (q : Nat)
    (ht : preprocess_filings_df rs = Except.ok tbl)
    (hs : s ∈ seriesKeys rs)
    (hout : q < (observedQuarters rs s).min?.getD 0 ∨
      (observedQuarters rs s).max?.getD 0 < q) :
    ∀ r ∈ tbl, ¬(rowSeriesKey r = s ∧ r.quarter_end = q) := by
  rw [preprocess_ok_eq ht]
  intro r hr hcl
  have hr2 : r ∈ buildRows (preprocessMid rs) :=
    ((List.perm_insertionSort rowLe _).mem_iff).mp hr
  rcases List.mem_flatMap.mp hr2 with ⟨a, _, hra⟩
  obtain ⟨hkey, _, hlo, hhi⟩ := mem_rowsFor hra
  rw [hcl.1] at hkey
  subst hkey
  rw [hcl.2] at hlo hhi
  unfold observedQuarters at hout
  omega

/-- Witness for C8: the put series of `exG` has no row at a quarter before
its first sighting. -/
theorem C8_no_extrapolation_witness :
    ((20230101 : Nat) < (observedQuarters exG "XYZ (put)").min?.getD 0 ∨
      (observedQuarters exG "XYZ (put)").max?.getD 0 < 20230101) ∧
    ∀ r ∈ normalizeRows exG, ¬(rowSeriesKey r = "XYZ (put)" ∧ r.quarter_end = 20230101) :=
  ⟨by decide,
    C8_no_extrapolation exG (normalizeRows exG) "XYZ (put)" 20230101
      (by rfl) (by decide) (by decide)⟩

/-! ### Helpers for the selector lemmas -/

theorem max?_perm {l l' : List Nat} (h : l.Perm l') : l.max? = l'.max? := by
  haveI : Std.Antisymm (fun (a b : Nat) => a ≤ b) :=
    ⟨fun h1 h2 => Nat.le_antisymm h1 h2⟩
  cases hl : l.max? with
  | none =>
    rw [List.max?_eq_none_iff] at hl
    subst hl
    rw [List.max?_eq_none_iff.mpr (h.symm.eq_nil)]
  | some m =>
    rw [List.max?_eq_some_iff (fun a => Nat.le_refl a) (fun a b => max_choice a b)
      (fun a b c => max_le_iff)] at hl
    symm
    rw [List.max?_eq_some_iff (fun a => Nat.le_refl a) (fun a b => max_choice a b)
      (fun a b c => max_le_iff)]
    exact ⟨h.mem_iff.mp hl.1, fun b hb => hl.2 b (h.mem_iff.mpr hb)⟩

theorem dfEndSorted_perm (df : List Row) :
    (dfEndSorted df).Perm (rowsAtMaxDate df) := by
  unfold dfEndSorted rowsAtMaxDate maxDate
  have hperm := List.perm_insertionSort
    (fun (a b : Row) => a.quarter_end ≤ b.quarter_end) df
  have hmax : ((df.insertionSort (fun a b => a.quarter_end ≤ b.quarter_end)).map
      (fun r => r.quarter_end)).max? = (df.map (fun r => r.quarter_end)).max? :=
    max?_perm (hperm.map _)
  simp only [hmax]
  exact (List.perm_insertionSort _ _).trans (hperm.filter _)

theorem dfEndSorted_length (df : List Row) :
    (dfEndSorted df).length = (rowsAtMaxDate df).length :=
  (dfEndSorted_perm df).length_eq

theorem pandasHead_nonneg {α : Type} {k : Int} (hk : 0 ≤ k) (l : List α) :
    pandasHead k l = l.take k.toNat := by
  unfold pandasHead
  rw [if_pos hk]

theorem pandasHead_neg_eq {α : Type} (l : List α) (k : Int) (hk : k < 0) :
    pandasHead k l = pandasHead (max 0 ((l.length : Int) + k)) l := by
  unfold pandasHead
  rw [if_neg (by omega), if_pos (le_max_left _ _)]
  congr 1
  omega

theorem contains_iff_mem {α : Type} [BEq α] [LawfulBEq α] {l : List α} {a : α} :
    l.contains a = true ↔ a ∈ l := List.elem_iff

/-! ### Claim theorems: error handling and purity -/

/-- Claim C4 (code_bug evidence): `preprocess_filings_df` on the empty record
sequence does not return an empty table; the frame built from the empty
`updated_rows` has no columns and the final sort raises, the `Except.error`
case of the embedding. -/
theorem C4_empty_input_errors : preprocess_filings_df [] = Except.error () := by rfl

/-- Counterexample to claim C2: re-running normalize on the rows of an
already-normalized table does not reproduce the table; on `exV` the reported
value is scaled by 1000 a second time. -/
theorem C2_counterexample :
    normalizeRows ((normalizeRows exV).map rowToRecord) ≠ normalizeRows exV := by
  decide

/-- Counterexample to claim C3: the table normalize produces for `exS` is not
sorted by (`seriesId`, `periodEndDate`): the final sort key is the raw Ticker
column, and the kept put rows (Ticker "XYZ", seriesId "XYZ (put)") precede
the equity row (seriesId "XYZ") at the same Ticker. -/
theorem C3_counterexample :
    preprocess_filings_df exS = Except.ok (normalizeRows exS) ∧
    ¬ sortedBySeriesId (normalizeRows exS) := ⟨by rfl, by decide⟩

/-- Claim C3 as amended: the normalized table is sorted ascending by the pair
(raw Ticker column, `periodEndDate`) — for synthesized rows the Ticker column
already carries the suffixed series id — not by the derived `seriesId`. -/
theorem C3_amended_sorted_by_ticker (rs : List RawRow) (tbl : List Row)
    (ht : preprocess_filings_df rs = Except.ok tbl) :
    tbl.Pairwise rowLe := by
  rw [preprocess_ok_eq ht]
  exact List.sorted_insertionSort rowLe _

/-- Witness for the amended C3 at the concrete input `exS`. -/
theorem C3_amended_sorted_by_ticker_witness :
    preprocess_filings_df exS = Except.ok (normalizeRows exS) ∧
    (normalizeRows exS).Pairwise rowLe :=
  ⟨by rfl, C3_amended_sorted_by_ticker exS (normalizeRows exS) (by rfl)⟩

/-- Counterexample to claim C6: `filter_date_range` with an explicit window
whose start (Jun 30) exceeds its end (Mar 31) returns an (empty) table
rather than failing: the pandas mask is simply empty. -/
theorem C6_counterexample :
    dateEnc 2023 3 31 < dateEnc 2023 6 30 ∧
    filter_date_range (normalizeRows exK) (dateEnc 2023 6 30) (dateEnc 2023 3 31) = [] :=
  ⟨by decide, by decide⟩

/-- Claim C6 as amended: an explicit window with start > end yields the empty
table (a normal return, not a failure). -/
theorem C6_amended_empty (df : List Row) (s e : Nat) (h : e < s) :
    filter_date_range df s e = [] := by
  unfold filter_date_range
  rw [List.filter_eq_nil_iff]
  intro r _
  simp only [Bool.and_eq_true, decide_eq_true_eq, not_and]
  omega

/-- Witness for the amended C6 at a concrete table and window. -/
theorem C6_amended_empty_witness :
    dateEnc 2023 3 31 < dateEnc 2023 6 30 ∧
    filter_date_range (normalizeRows exS) (dateEnc 2023 6 30) (dateEnc 2023 3 31) = [] :=
  ⟨by decide,
    C6_amended_empty (normalizeRows exS) (dateEnc 2023 6 30) (dateEnc 2023 3 31) (by decide)⟩

/-- Counterexample to claim C9: `preprocess_filings_df` does not leave its
input unchanged; on `exV` the caller's frame has its value column scaled in
place. -/
theorem C9_counterexample : preprocess_filings_df_inputAfter exV ≠ exV := by decide

/-- Claim C9 as amended: the Window Filter and the Top-K Selector leave their
argument unchanged, but the Normalizer updates the caller's frame in place
(Date Filed converted and the value column scaled by 1000, all other columns
and the row order untouched), and the Projector overwrites the caller's
`ticker_adjusted` column with the recomputed suffixed id. -/
theorem C9_amended_mutation :
    (∀ df : List Row, filter_date_range_inputAfter df = df) ∧
    (∀ df : List Row, filter_top_k_holdings_inputAfter df = df) ∧
    (∀ rs : List RawRow, preprocess_filings_df_inputAfter rs =
      rs.map (fun r =>
        { r with dateFiled := toDatetime r.dateFiled, value := 1000 * r.value })) ∧
    (∀ df : List Row, make_graph_inputAfter df =
      df.map (fun r =>
        { r with ticker_adjusted := some (adjustTicker r.ticker r.optionType) })) := by
  refine ⟨fun df => rfl, fun df => rfl, fun rs => ?_, fun df => rfl⟩
  unfold preprocess_filings_df_inputAfter
  rw [List.map_map]
  rfl

/-- Claim C10: in the table normalize produces for `exG`, the synthesized
zero row of the put series carries the suffixed series id "XYZ (put)" in its
raw Ticker column (with `optionType` still put), the kept rows of the same
series retain the raw symbol "XYZ", and hence rows of one series do not all
share one raw symbol value. -/
theorem C10_synth_symbol_suffix :
    preprocess_filings_df exG = Except.ok (normalizeRows exG) ∧
    (∃ r ∈ normalizeRows exG, r.ticker_adjusted = none ∧ r.ticker = "XYZ (put)" ∧
      r.optionType = OptType.put ∧ r.value = 0 ∧ r.percentage = 0 ∧ r.shares = 0) ∧
    (∃ r ∈ normalizeRows exG, r.ticker_adjusted = some "XYZ (put)" ∧ r.ticker = "XYZ") ∧
    ¬ (∀ r1 ∈ normalizeRows exG, ∀ r2 ∈ normalizeRows exG,
        rowSeriesKey r1 = rowSeriesKey r2 → r1.ticker = r2.ticker) :=
  ⟨by rfl, by decide, by decide, by decide⟩

/-- Counterexample to claim C5: `filter_top_k_holdings` with k = -1 on a
two-row normalized table is not empty (pandas `head(-1)` keeps all but the
last ranked row); k = 0 does yield the empty table. -/
theorem C5_counterexample :
    preprocess_filings_df exK = Except.ok (normalizeRows exK) ∧
    filter_top_k_holdings (normalizeRows exK) (-1) ≠ [] ∧
    filter_top_k_holdings (normalizeRows exK) 0 = [] :=
  ⟨by rfl, by decide, by decide⟩

/-- Claim C5 as amended: k = 0 yields the empty table, but a negative k is
not treated as 0: pandas `head(k)` keeps all but the last |k| ranked
end-date rows, so the selection equals the one for max 0 (endRows + k). -/
theorem C5_amended_negative_k (df : List Row) (k : Int) (hk : k < 0) :
    filter_top_k_holdings df 0 = [] ∧
    filter_top_k_holdings df k =
      filter_top_k_holdings df (max 0 (((rowsAtMaxDate df).length : Int) + k)) := by
  constructor
  · unfold filter_top_k_holdings
    simp [pandasHead, uniqueList, uniqueAux, List.contains]
  · unfold filter_top_k_holdings
    simp only [pandasHead_neg_eq (dfEndSorted df) k hk, dfEndSorted_length df]

/-- Witness for the amended C5 at the concrete table of `exK` and k = -1. -/
theorem C5_amended_negative_k_witness :
    (-1 : Int) < 0 ∧
    filter_top_k_holdings (normalizeRows exK) 0 = [] ∧
    filter_top_k_holdings (normalizeRows exK) (-1) =
      filter_top_k_holdings (normalizeRows exK)
        (max 0 (((rowsAtMaxDate (normalizeRows exK)).length : Int) + -1)) :=
  ⟨by decide, C5_amended_negative_k (normalizeRows exK) (-1) (by decide)⟩

/-- Counterexample to claim C7: on the normalized table of `exT` the
percentages at the maximum quarter are pairwise distinct and five distinct
symbols exist there, yet `selectTopK(table, 5)` returns rows for only four
distinct symbols: the equity and the put share the raw symbol XYZ, so the
five ranked head rows contain a duplicate. -/
theorem C7_counterexample :
    preprocess_filings_df exT = Except.ok (normalizeRows exT) ∧
    ((rowsAtMaxDate (normalizeRows exT)).map (fun r => r.percentage)).Pairwise
      (fun a b => a ≠ b) ∧
    (distinctTickers (filter_top_k_holdings (normalizeRows exT) 5)).length = 4 ∧
    (distinctTickers (rowsAtMaxDate (normalizeRows exT))).length = 5 ∧
    (distinctTickers (filter_top_k_holdings (normalizeRows exT) 5)).length ≠
      min 5 (distinctTickers (rowsAtMaxDate (normalizeRows exT))).length :=
  ⟨by rfl, by decide, by decide, by decide, by decide⟩

/-- Claim C7 as amended: `selectTopK(table, 5)` yields rows for at most 5
distinct raw symbols, and for exactly min(5, distinct symbols at the maximum
quarter) whenever each symbol occurs in at most one row at the maximum
quarter; with a symbol duplicated there (an equity and an option position
sharing it), fewer symbols can be selected even with pairwise distinct
percentages. -/
theorem C7_amended_cardinality (df : List Row) :
    (distinctTickers (filter_top_k_holdings df 5)).length ≤ 5 ∧
    (((rowsAtMaxDate df).map (fun r => r.ticker)).Nodup →
      (distinctTickers (filter_top_k_holdings df 5)).length =
        min 5 (distinctTickers (rowsAtMaxDate df)).length) := by
  have hresult : filter_top_k_holdings df 5 =
      (df.insertionSort (fun a b => a.quarter_end ≤ b.quarter_end)).filter
        (fun r => (uniqueList ((pandasHead 5 (dfEndSorted df)).map
          (fun r => r.ticker))).contains r.ticker) := rfl
  have htake : pandasHead (5 : Int) (dfEndSorted df) = (dfEndSorted df).take 5 := by
    rw [pandasHead_nonneg (by norm_num)]
    rfl
  have hperm := List.perm_insertionSort
    (fun (a b : Row) => a.quarter_end ≤ b.quarter_end) df
  have hmem : ∀ r : Row, r ∈ filter_top_k_holdings df 5 ↔ r ∈ df ∧
      r.ticker ∈ uniqueList ((pandasHead 5 (dfEndSorted df)).map (fun r => r.ticker)) := by
    intro r
    rw [hresult, List.mem_filter, hperm.mem_iff, contains_iff_mem]
  have hsub : ∀ x ∈ (filter_top_k_holdings df 5).map (fun r => r.ticker),
      x ∈ uniqueList ((pandasHead 5 (dfEndSorted df)).map (fun r => r.ticker)) := by
    intro x hx
    rcases List.mem_map.mp hx with ⟨r, hr, rfl⟩
    exact ((hmem r).mp hr).2
  have hcard_le : (distinctTickers (filter_top_k_holdings df 5)).length ≤
      (uniqueList ((pandasHead 5 (dfEndSorted df)).map (fun r => r.ticker))).length := by
    rw [distinctTickers, length_uniqueList_eq_card]
    refine le_trans (Finset.card_le_card ?_) (List.toFinset_card_le _)
    intro x hx
    exact List.mem_toFinset.mpr (hsub x (List.mem_toFinset.mp hx))
  have htop_le : (uniqueList ((pandasHead 5 (dfEndSorted df)).map
      (fun r => r.ticker))).length ≤ 5 := by
    refine le_trans (length_uniqueList_le _) ?_
    rw [List.length_map, htake]
    exact List.length_take_le 5 _
  refine ⟨le_trans hcard_le htop_le, ?_⟩
  intro hnd
  have hnd_end : ((dfEndSorted df).map (fun r => r.ticker)).Nodup :=
    (((dfEndSorted_perm df).map (fun r => r.ticker)).symm).nodup hnd
  have h5nd : ((pandasHead 5 (dfEndSorted df)).map (fun r => r.ticker)).Nodup := by
    rw [htake, List.map_take]
    exact List.Nodup.sublist (List.take_sublist _ _) hnd_end
  have htop_eq : uniqueList ((pandasHead 5 (dfEndSorted df)).map (fun r => r.ticker)) =
      (pandasHead 5 (dfEndSorted df)).map (fun r => r.ticker) :=
    uniqueList_eq_self h5nd
  have hlen_top : (uniqueList ((pandasHead 5 (dfEndSorted df)).map
      (fun r => r.ticker))).length = min 5 (rowsAtMaxDate df).length := by
    rw [htop_eq, List.length_map, htake, List.length_take, dfEndSorted_length]
  have hrhs : (distinctTickers (rowsAtMaxDate df)).length =
      (rowsAtMaxDate df).length := by
    rw [distinctTickers, uniqueList_eq_self hnd, List.length_map]
  have hset : ((filter_top_k_holdings df 5).map (fun r => r.ticker)).toFinset =
      (uniqueList ((pandasHead 5 (dfEndSorted df)).map (fun r => r.ticker))).toFinset := by
    ext x
    simp only [List.mem_toFinset]
    constructor
    · intro hx
      exact hsub x hx
    · intro hx
      have hx0 := hx
      rw [htop_eq, htake, List.map_take] at hx0
      have hx2 : x ∈ (dfEndSorted df).map (fun r => r.ticker) :=
        (List.take_sublist 5 _).subset hx0
      rcases List.mem_map.mp hx2 with ⟨r, hr, rfl⟩
      have hrdf : r ∈ df := by
        have hmax := (dfEndSorted_perm df).mem_iff.mp hr
        exact (List.mem_filter.mp hmax).1
      exact List.mem_map.mpr ⟨r, (hmem r).mpr ⟨hrdf, hx⟩, rfl⟩
  rw [distinctTickers, length_uniqueList_eq_card, hset,
    List.toFinset_card_of_nodup (nodup_uniqueList _), hlen_top, hrhs]

/-- Witness for the amended C7 at the concrete table of `exK`, where the two
end-date rows have distinct symbols and min(5, 2) = 2 symbols are selected. -/
theorem C7_amended_cardinality_witness :
    ((rowsAtMaxDate (normalizeRows exK)).map (fun r => r.ticker)).Nodup ∧
    (distinctTickers (filter_top_k_holdings (normalizeRows exK) 5)).length ≤ 5 ∧
    (distinctTickers (filter_top_k_holdings (normalizeRows exK) 5)).length =
      min 5 (distinctTickers (rowsAtMaxDate (normalizeRows exK))).length :=
  ⟨by decide, (C7_amended_cardinality (normalizeRows exK)).1,
    (C7_amended_cardinality (normalizeRows exK)).2 (by decide)⟩

/-! ### Idempotence on single records -/

theorem preprocessMid_single (r : RawRow) (p : Int) (hp : r.percentage = some p) :
    preprocessMid [r] =
      [{ quarter := r.quarter, dateFiled := toDatetime r.dateFiled, ticker := r.ticker,
         companyName := r.companyName, cls := r.cls, cusip := r.cusip,
         value := 1000 * r.value, percentage := p, shares := r.shares,
         principal := r.principal, optionType := r.optionType,
         quarter_end := get_quarter_end r.quarter,
         ticker_adjusted := adjustTicker r.ticker r.optionType }] := by
  unfold preprocessMid preprocess_filings_df_inputAfter
  simp [convertDateFiled, scaleValue, hp, mkMid, List.insertionSort, List.orderedInsert]

theorem buildRows_single (M : MidRow) : buildRows [M] = [midToRow M] := by
  unfold buildRows all_quarters uniqueList rowsFor emitFor obsQ
  simp [List.dedup, List.insertionSort, List.orderedInsert, List.min?, List.max?,
    tickerDf, uniqueAux, List.filterMap, List.filter]

theorem normalizeRows_single (r : RawRow) (p : Int) (hp : r.percentage = some p) :
    normalizeRows [r] =
      [{ quarter := r.quarter, dateFiled := toDatetime r.dateFiled, ticker := r.ticker,
         companyName := r.companyName, cls := r.cls, cusip := r.cusip,
         value := 1000 * r.value, percentage := p, shares := r.shares,
         principal := r.principal, optionType := r.optionType,
         quarter_end := get_quarter_end r.quarter,
         ticker_adjusted := some (adjustTicker r.ticker r.optionType) }] := by
  unfold normalizeRows
  rw [preprocessMid_single r p hp, buildRows_single]
  simp [List.insertionSort, List.orderedInsert, midToRow]

/-- Claim C2 as amended: re-running normalize is not the identity in general
(every value is scaled by 1000 again, and a synthesized option row is
re-split as a new doubly-suffixed series); idempotence does hold for any
single record with a present percentage and a zero value, equity or option. -/
theorem C2_amended_single_record (r : RawRow) (p : Int)
    (hp : r.percentage = some p) (hv : r.value = 0) :
    normalizeRows ((normalizeRows [r]).map rowToRecord) = normalizeRows [r] := by
  rw [normalizeRows_single r p hp]
  simp only [List.map_cons, List.map_nil, rowToRecord]
  rw [normalizeRows_single _ p (by simp)]
  simp [hv, toDatetime]

/-- Witness for the amended C2 at a concrete zero-value put record. -/
theorem C2_amended_single_record_witness :
    (mkRec q1 "XYZ" OptType.put 2 0).percentage = some 2 ∧
    (mkRec q1 "XYZ" OptType.put 2 0).value = 0 ∧
    normalizeRows ((normalizeRows [mkRec q1 "XYZ" OptType.put 2 0]).map rowToRecord) =
      normalizeRows [mkRec q1 "XYZ" OptType.put 2 0] :=
  ⟨by rfl, by rfl,
    C2_amended_single_record (mkRec q1 "XYZ" OptType.put 2 0) 2 (by rfl) (by rfl)⟩

end FundTracker
